import Mathlib

/-!
Verification of the tabular extraction-and-merge pipeline of the
file-combiner application (source: Excel_CSVCombinerApp_v4_8.py).

The Python program reads spreadsheet-like files into raw grids, slices a
header row and a data range out of each grid, de-duplicates header names,
selects a requested subset of columns, tags rows with their source file,
concatenates all per-file tables by column-name union, optionally enriches
the result through a left lookup-join, and writes one output file.

This file embeds those operations as executable Lean definitions, faithful
to the Python source (the pandas operations are modelled at the level the
pipeline uses them), and proves the specified properties about them.

Modelling conventions:
  - a grid cell is an `Option String`: `none` models a null cell (NaN);
  - row numbers are the 1-based positive numbers the settings carry;
  - Python dicts keyed by strings are modelled as functions
    `String → Option Nat`;
  - per-file and per-stage failures (exceptions, `continue`, early
    `return`) are modelled with `Option` and `Except`.
-/

namespace Combiner

/-- Cell of a raw grid or of a table: `none` models a null value. -/
abbrev Cell := Option String

/-- Coercion of a header cell to text, as Python `str` renders it
(`str(nan)` prints as `nan`). -/
def cellToStr (c : Cell) : String :=
  match c with
  | some s => s
  | none => "nan"

/-- State-passing loop of `_make_columns_unique`: `seen` models the Python
dict from name to the number of suffixed copies produced so far, `out` the
accumulated output list. -/
def uniqFold : List String → (String → Option Nat) → List String → List String
  | [], _, out => out
  | c :: rest, seen, out =>
    match seen c with
    | some v => uniqFold rest (fun x => if x = c then some (v + 1) else seen x)
        (out ++ [c ++ "." ++ Nat.repr (v + 1)])
    | none => uniqFold rest (fun x => if x = c then some 0 else seen x) (out ++ [c])

/-- Embedding of `_make_columns_unique` (lines 49-61 of the source): scans
the names left to right; a first occurrence is kept, a repeated occurrence
gets the suffix `.<count>`. -/
def _make_columns_unique (columns : List String) : List String :=
  uniqFold columns (fun _ => none) []

/-- Dict state reached after scanning the prefix `p`: a name maps to
(number of its occurrences in `p`) - 1, absent when it never occurred. -/
def seenOf (p : List String) : String → Option Nat :=
  fun x => if p.count x = 0 then none else some (p.count x - 1)

/-- Output the de-duplication scan produces for the remaining names, given
that the prefix `p` has already been scanned. -/
def expectedTail (p : List String) : List String → List String
  | [] => []
  | c :: rest =>
    (if p.count c = 0 then c else c ++ "." ++ Nat.repr (p.count c))
      :: expectedTail (p ++ [c]) rest

/-- Name the de-duplication scan assigns to position `i` of the header:
kept as-is when the name has no earlier occurrence, suffixed with the
number of earlier occurrences otherwise. -/
def dedupName (columns : List String) (i : Nat) : String :=
  let c := columns.getD i ""
  let k := (columns.take i).count c
  if k = 0 then c else c ++ "." ++ Nat.repr k

/-- Numeric value of a decimal digit character. -/
def digitVal (c : Char) : Nat := c.toNat - 48

/-- Value a digit-character list denotes in base 10. -/
def parseVal (l : List Char) : Nat :=
  l.foldl (fun a c => 10 * a + digitVal c) 0

/-- Dot-free strings: header names that do not already contain the
character used by the suffixing scheme. -/
def DotFree (s : String) : Prop := ('.' : Char) ∉ s.data

/-- Table: ordered named columns with rows stored positionally, the shape
a pandas DataFrame presents to this pipeline. -/
structure Table where
  cols : List String
  rows : List (List Cell)
deriving DecidableEq

/-- Position of a column name in a column list (first match). -/
def colIndex? : List String → String → Option Nat
  | [], _ => none
  | d :: tl, c => if d = c then some 0 else (colIndex? tl c).map (· + 1)

/-- Value of the cell in column `c` of a row laid out along `cols`; `none`
for an absent column or a short row. -/
def getCell (cols : List String) (row : List Cell) (c : String) : Cell :=
  match colIndex? cols c with
  | some i => (row.get? i).getD none
  | none => none

/-- Embedding of `df[cols]`: a table narrowed to the requested columns, in
the requested order. -/
def projectCols (t : Table) (req : List String) : Table :=
  ⟨req, t.rows.map (fun r => req.map (fun c => getCell t.cols r c))⟩

/-- Column Normalizer for input files (lines 112-120): rejects the grid
when it has fewer rows than the 0-based data-start offset, takes the
header row (failing like `iloc` when it is out of range), de-duplicates
the names, and keeps all rows from the data-start offset on. -/
def normalize (grid : List (List Cell)) (headerRow dataStartRow : Nat) : Option Table :=
  if grid.length < dataStartRow - 1 then none
  else
    match grid.get? (headerRow - 1) with
    | none => none
    | some hdr =>
      some ⟨_make_columns_unique (hdr.map cellToStr), grid.drop (dataStartRow - 1)⟩

/-- Column Normalizer for the lookup file (lines 178-182): same slicing but
without the row-count guard — an out-of-range header row is the only
failure. -/
def normalizeLookup (grid : List (List Cell)) (headerRow dataStartRow : Nat) :
    Option Table :=
  match grid.get? (headerRow - 1) with
  | none => none
  | some hdr =>
    some ⟨_make_columns_unique (hdr.map cellToStr), grid.drop (dataStartRow - 1)⟩

/-- Column Selector (lines 122-132): an empty request passes the table
through; otherwise the table is narrowed to the present requested columns
and the absent ones are returned as the warning list; when none are
present the file is rejected (`none`). -/
def selectColumns (t : Table) (req : List String) : Option (Table × List String) :=
  if req = [] then some (t, [])
  else
    let existing := req.filter (fun c => decide (c ∈ t.cols))
    let missing := req.filter (fun c => decide (c ∉ t.cols))
    if existing = [] then none
    else some (projectCols t existing, missing)

/-- Embedding of `data_df[s] = basename` (line 134): appends the
provenance column, or overwrites it when a column of that name already
exists. -/
def addSourceFile (t : Table) (name : String) : Table :=
  if "source_file" ∈ t.cols then
    ⟨t.cols, t.rows.map (fun r => t.cols.map (fun c =>
        if c = "source_file" then some name else getCell t.cols r c))⟩
  else ⟨t.cols ++ ["source_file"], t.rows.map (fun r => r ++ [some name])⟩

/-- Appends the names of `cs` not yet present to `acc`, keeping first-seen
order — the column-union rule of `pd.concat`. -/
def unionCols (acc : List String) (cs : List String) : List String :=
  cs.foldl (fun a c => if c ∈ a then a else a ++ [c]) acc

/-- Ordered union of the column lists of all tables. -/
def concatCols (ts : List Table) : List String :=
  ts.foldl (fun a t => unionCols a t.cols) []

/-- Re-lays a row out along the combined column list; columns the source
table lacks become `none`. -/
def reindexRow (srcCols outCols : List String) (row : List Cell) : List Cell :=
  outCols.map (fun c => getCell srcCols row c)

/-- Embedding of `pd.concat(all_data_frames, ignore_index=True)` (line
146): columns are the ordered union, rows follow accumulation order, and
cells of absent columns are null. -/
def concatTables (ts : List Table) : Table :=
  let cols := concatCols ts
  ⟨cols, (ts.map (fun t => t.rows.map (fun r => reindexRow t.cols cols r))).flatten⟩

/-- Embedding of `pd.merge(left, right, left_on, right_on, how=left)` as
used on line 192: every left row is kept; each matching right row fans it
out, a row with no match gets nulls; when the two key names coincide the
single shared key column stays on the left side. Suffix-renaming of other
overlapping column names is not modelled (the theorems using this
definition do not touch that case). -/
def mergeLeft (left right : Table) (leftKey rightKey : String) : Table :=
  let rightCols := if leftKey = rightKey
    then right.cols.filter (fun c => decide (c ≠ rightKey))
    else right.cols
  ⟨left.cols ++ rightCols,
   (left.rows.map (fun lr =>
      let k := getCell left.cols lr leftKey
      let ms := right.rows.filter (fun rr => decide (getCell right.cols rr rightKey = k))
      if ms = [] then [lr ++ rightCols.map (fun _ => (none : Cell))]
      else ms.map (fun rr => lr ++ rightCols.map (fun c => getCell right.cols rr c)))).flatten⟩

/-- Embedding of `df.drop(columns=[c])` (line 197). -/
def dropCol (t : Table) (c : String) : Table :=
  let kept := t.cols.filter (fun d => decide (d ≠ c))
  ⟨kept, t.rows.map (fun r => kept.map (fun d => getCell t.cols r d))⟩

/-- Merge block body (lines 187-197): projects the lookup table to the key
plus the requested columns (key-duplicates removed), left-joins, and drops
the lookup key exactly when its name differs from the source key and it
was not itself requested. -/
def enrich (finalT lookupT : Table) (sourceKey lookupKey : String)
    (colsToAdd : List String) : Table :=
  let columnsForSubset := lookupKey :: colsToAdd.filter (fun c => decide (c ≠ lookupKey))
  let lookupSubset := projectCols lookupT columnsForSubset
  let merged := mergeLeft finalT lookupSubset sourceKey lookupKey
  if sourceKey ≠ lookupKey ∧ lookupKey ∉ colsToAdd then dropCol merged lookupKey
  else merged

/-- Merge block with its failure modes (lines 184-197): a missing source
key, a missing lookup key, or a missing requested lookup column raises, in
that order, before the join runs. -/
def enrichChecked (finalT lookupT : Table) (sourceKey lookupKey : String)
    (colsToAdd : List String) : Except String Table :=
  if sourceKey ∉ finalT.cols then Except.error "source key column missing"
  else if lookupKey ∉ lookupT.cols then Except.error "lookup key column missing"
  else if colsToAdd.filter (fun c => decide (c ∉ lookupT.cols)) ≠ [] then
    Except.error "requested lookup columns missing"
  else Except.ok (enrich finalT lookupT sourceKey lookupKey colsToAdd)

/-- Settings fields of `process_files` that the run model needs. -/
structure RunSettings where
  headerRow : Nat
  dataStartRow : Nat
  columnsToExtract : List String
  enableMerge : Bool
  lookupHeaderRow : Nat
  lookupDataStartRow : Nat
  sourceKey : String
  lookupKey : String
  lookupColsToAdd : List String
deriving DecidableEq

/-- Per-file pipeline of the main loop (lines 93-136): normalize, select,
then tag with the source file name; `none` models `continue`. -/
def processOneFile (s : RunSettings) (name : String) (grid : List (List Cell)) :
    Option Table :=
  match normalize grid s.headerRow s.dataStartRow with
  | none => none
  | some t =>
    match selectColumns t s.columnsToExtract with
    | none => none
    | some (t2, _) => some (addSourceFile t2 name)

/-- Tables accumulated in `all_data_frames`, in file-discovery order. -/
def accumTables (s : RunSettings) (files : List (String × List (List Cell))) :
    List Table :=
  files.filterMap (fun f => processOneFile s f.1 f.2)

/-- Lookup Enricher stage (lines 150-197): an unreadable lookup file, an
out-of-range lookup header row, or a key/column failure inside the merge
block all surface as the stage error. -/
def lookupStage (s : RunSettings) (lookupGrid : Option (List (List Cell)))
    (finalT : Table) : Except String Table :=
  match lookupGrid with
  | none => Except.error "cannot read lookup file"
  | some g =>
    match normalizeLookup g s.lookupHeaderRow s.lookupDataStartRow with
    | none => Except.error "lookup header row out of range"
    | some lkt => enrichChecked finalT lkt s.sourceKey s.lookupKey s.lookupColsToAdd

/-- Observable outcome of one run: the table handed to the output writer
(`none` when the run stops before saving) and the reported merge-stage
error, if any. -/
structure RunResult where
  written : Option Table
  mergeError : Option String
deriving DecidableEq

/-- Control flow of `process_files` after reading (lines 91-215): per-file
accumulation, the empty-accumulation early return, concatenation, the
optional merge stage whose exception handler logs and falls through, and
the unconditional save that follows. -/
def runCombine (s : RunSettings) (files : List (String × List (List Cell)))
    (lookupGrid : Option (List (List Cell))) : RunResult :=
  let tables := accumTables s files
  if tables = [] then ⟨none, none⟩
  else
    let finalT := concatTables tables
    if s.enableMerge then
      match lookupStage s lookupGrid finalT with
      | Except.ok merged => ⟨some merged, none⟩
      | Except.error e => ⟨some finalT, some e⟩
    else ⟨some finalT, none⟩

/-- Settings record as `App.run_processing` sees it: the validated fields
are read back from the persisted configuration, so every checked field is
a string to be stripped. -/
structure AppSettings where
  input_folder : String
  output_folder : String
  sheet_name : String
  header_row : String
  data_start_row : String
  columns_to_extract : String
  output_filename : String
  output_format : String
  enable_merge : Bool
  lookup_file_path : String
  source_key_column : String
  lookup_key_column : String
  lookup_columns_to_add : String
  enable_txt_processing : Bool
  txt_delimiter : String
  enable_lookup_txt : Bool
  lookup_txt_delimiter : String
  lookup_header_row : String
  lookup_data_start_row : String
deriving DecidableEq

/-- Value of a named settings field, as `settings.get(field, '')` reads
it. -/
def getField (s : AppSettings) (f : String) : String :=
  if f = "input_folder" then s.input_folder
  else if f = "output_folder" then s.output_folder
  else if f = "sheet_name" then s.sheet_name
  else if f = "header_row" then s.header_row
  else if f = "data_start_row" then s.data_start_row
  else if f = "output_filename" then s.output_filename
  else if f = "txt_delimiter" then s.txt_delimiter
  else if f = "lookup_file_path" then s.lookup_file_path
  else if f = "lookup_header_row" then s.lookup_header_row
  else if f = "lookup_data_start_row" then s.lookup_data_start_row
  else if f = "source_key_column" then s.source_key_column
  else if f = "lookup_key_column" then s.lookup_key_column
  else if f = "lookup_columns_to_add" then s.lookup_columns_to_add
  else if f = "lookup_txt_delimiter" then s.lookup_txt_delimiter
  else ""

/-- Embedding of Python `str.strip()`: removes leading and trailing
whitespace. -/
def pyStrip (s : String) : String :=
  ⟨((s.data.dropWhile Char.isWhitespace).reverse.dropWhile Char.isWhitespace).reverse⟩

/-- Required-field list of `App.run_processing` (lines 452-458): the base
fields, the input-txt delimiter when txt processing is on, and the merge
fields — including the lookup delimiter only when the lookup-txt flag is
on as well — when merge is on. -/
def requiredFields (s : AppSettings) : List String :=
  ["input_folder", "output_folder", "sheet_name", "header_row", "data_start_row",
   "output_filename"]
  ++ (if s.enable_txt_processing then ["txt_delimiter"] else [])
  ++ (if s.enable_merge then
        ["lookup_file_path", "lookup_header_row", "lookup_data_start_row",
         "source_key_column", "lookup_key_column", "lookup_columns_to_add"]
        ++ (if s.enable_lookup_txt then ["lookup_txt_delimiter"] else [])
      else [])

/-- Fields whose stripped value is empty (line 460). -/
def missingFields (s : AppSettings) : List String :=
  (requiredFields s).filter (fun f => decide (pyStrip (getField s f) = ""))

/-- Outcome of the precondition gate: either an abort that reports the
missing fields before any file processing, or entry into the pipeline. -/
inductive RunOutcome where
  | aborted (missing : List String)
  | proceeded
deriving DecidableEq

/-- Precondition gate of `App.run_processing` (lines 460-468). -/
def run_processing (s : AppSettings) : RunOutcome :=
  if missingFields s ≠ [] then RunOutcome.aborted (missingFields s)
  else RunOutcome.proceeded

/-- Required-field list as the uniqueness claim words it, for comparison
with `requiredFields`: each delimiter is tied to its own flag alone, so
the lookup delimiter is demanded even when merge is disabled. -/
def claimRequiredFields (s : AppSettings) : List String :=
  ["input_folder", "output_folder", "sheet_name", "header_row", "data_start_row",
   "output_filename"]
  ++ (if s.enable_merge then
        ["lookup_file_path", "lookup_header_row", "lookup_data_start_row",
         "source_key_column", "lookup_key_column", "lookup_columns_to_add"]
      else [])
  ++ (if s.enable_txt_processing then ["txt_delimiter"] else [])
  ++ (if s.enable_lookup_txt then ["lookup_txt_delimiter"] else [])

/-- Empty fields among the claim-worded required list. -/
def claimMissingFields (s : AppSettings) : List String :=
  (claimRequiredFields s).filter (fun f => decide (pyStrip (getField s f) = ""))

/-! Concrete fixtures used by the witness and counterexample theorems. -/

/-- Accumulated table of a first example file: columns A, B and the
provenance tag, two rows. -/
def exT1 : Table :=
  ⟨["A", "B", "source_file"],
   [[some "a1", some "b1", some "f1"], [some "a2", some "b2", some "f1"]]⟩

/-- Accumulated table of a second example file: columns A, C and the
provenance tag, two rows. -/
def exT2 : Table :=
  ⟨["A", "C", "source_file"],
   [[some "a3", some "c3", some "f2"], [some "a4", some "c4", some "f2"]]⟩

/-- Run settings with merge enabled, keys SKU and ASIN_KEY, requesting the
lookup column ASIN. -/
def runMergeSettings : RunSettings :=
  ⟨1, 2, [], true, 1, 2, "SKU", "ASIN_KEY", ["ASIN"]⟩

/-- One readable input file: a header row naming SKU and one data row. -/
def runFiles : List (String × List (List Cell)) :=
  [("a.csv", [[some "SKU"], [some "X1"]])]

/-- Run settings requesting only the column Z, merge disabled. -/
def rejectSettings : RunSettings := ⟨1, 2, ["Z"], false, 1, 2, "", "", []⟩

/-- Run settings with an empty request list, merge disabled. -/
def acceptSettings : RunSettings := ⟨1, 2, [], false, 1, 2, "", "", []⟩

/-- Settings record with merge disabled but the lookup-txt flag on and its
delimiter empty; every field the code requires is filled. -/
def lookupTxtOnlySettings : AppSettings :=
  ⟨"in", "out", "Sheet1", "5", "7", "SKU", "combined", "csv", false,
   "", "", "", "", false, "", true, "", "", ""⟩

/-- Settings record whose input folder is blank (all other base fields
filled, all optional stages disabled). -/
def missingFolderSettings : AppSettings :=
  ⟨"", "out", "Sheet1", "5", "7", "SKU", "combined", "csv", false,
   "", "", "", "", false, "", false, "", "", ""⟩

end Combiner

namespace Combiner

/-! ### Characterization of the de-duplication scan -/

theorem seenOf_nil : seenOf [] = fun _ => none := by
  funext x
  simp [seenOf]

theorem seenOf_append (p : List String) (c : String) :
    (fun x => if x = c then some (p.count c) else seenOf p x) = seenOf (p ++ [c]) := by
  funext x
  by_cases hx : x = c
  · subst hx
    simp [seenOf, List.count_append]
  · simp [seenOf, List.count_append, hx, List.count_singleton]

theorem uniqFold_eq (cols : List String) :
    ∀ (p out : List String), uniqFold cols (seenOf p) out = out ++ expectedTail p cols := by
  induction cols with
  | nil => intro p out; simp [uniqFold, expectedTail]
  | cons c rest ih =>
    intro p out
    by_cases h : p.count c = 0
    · have hseen : seenOf p c = none := by simp [seenOf, h]
      have hupd : (fun x => if x = c then some 0 else seenOf p x)
          = seenOf (p ++ [c]) := by
        have := seenOf_append p c
        simpa [h] using this
      rw [uniqFold, hseen]
      simp only [hupd]
      rw [ih (p ++ [c])]
      simp [expectedTail, h]
    · have hpos : 0 < p.count c := Nat.pos_of_ne_zero h
      have hseen : seenOf p c = some (p.count c - 1) := by simp [seenOf, h]
      have hupd : (fun x => if x = c then some (p.count c - 1 + 1) else seenOf p x)
          = seenOf (p ++ [c]) := by
        have hsub : p.count c - 1 + 1 = p.count c := Nat.succ_pred_eq_of_pos hpos
        have := seenOf_append p c
        simpa [hsub] using this
      rw [uniqFold, hseen]
      simp only [hupd]
      rw [ih (p ++ [c])]
      have hsub : p.count c - 1 + 1 = p.count c := Nat.succ_pred_eq_of_pos hpos
      simp [expectedTail, h, hsub]

theorem make_columns_unique_eq (columns : List String) :
    _make_columns_unique columns = expectedTail [] columns := by
  rw [_make_columns_unique, ← seenOf_nil, uniqFold_eq]
  simp

theorem expectedTail_length (cols : List String) :
    ∀ p, (expectedTail p cols).length = cols.length := by
  induction cols with
  | nil => intro p; simp [expectedTail]
  | cons c rest ih => intro p; simp [expectedTail, ih]

theorem expectedTail_get? (cols : List String) :
    ∀ (p : List String) (i : Nat), i < cols.length →
      (expectedTail p cols).get? i =
        some (let c := cols.getD i "";
              let k := (p ++ cols.take i).count c;
              if k = 0 then c else c ++ "." ++ Nat.repr k) := by
  induction cols with
  | nil => intro p i h; simp at h
  | cons c rest ih =>
    intro p i h
    cases i with
    | zero => simp [expectedTail]
    | succ i =>
      have hi : i < rest.length := Nat.lt_of_succ_lt_succ h
      have := ih (p ++ [c]) i hi
      simp only [expectedTail, List.get?_cons_succ]
      rw [this]
      simp [List.append_assoc]

/-- Index-level description of the de-duplication scan. -/
theorem make_columns_unique_get? (columns : List String) (i : Nat)
    (h : i < columns.length) :
    (_make_columns_unique columns).get? i = some (dedupName columns i) := by
  rw [make_columns_unique_eq]
  have := expectedTail_get? columns [] i h
  simpa [dedupName] using this

theorem make_columns_unique_length (columns : List String) :
    (_make_columns_unique columns).length = columns.length := by
  rw [make_columns_unique_eq]
  exact expectedTail_length columns []

/-! ### Decimal rendering: every character of `Nat.repr` is a digit and
the rendering is injective -/

theorem digitVal_digitChar (d : Nat) (h : d < 10) :
    digitVal (Nat.digitChar d) = d := by
  interval_cases d <;> rfl

theorem digitChar_ne_dot (d : Nat) (h : d < 10) : Nat.digitChar d ≠ '.' := by
  interval_cases d <;> decide

theorem toDigitsCore_acc (b : Nat) :
    ∀ (fuel n : Nat) (ds : List Char),
      Nat.toDigitsCore b fuel n ds = Nat.toDigitsCore b fuel n [] ++ ds := by
  intro fuel
  induction fuel with
  | zero => intro n ds; simp [Nat.toDigitsCore]
  | succ f ih =>
    intro n ds
    simp only [Nat.toDigitsCore]
    by_cases h : n / b = 0
    · simp [h]
    · simp only [h, if_false]
      rw [ih (n / b) [Nat.digitChar (n % b)], ih (n / b) (Nat.digitChar (n % b) :: ds)]
      simp

theorem parseVal_concat (l : List Char) (c : Char) :
    parseVal (l ++ [c]) = 10 * parseVal l + digitVal c := by
  simp [parseVal, List.foldl_append]

theorem toDigitsCore_spec :
    ∀ (fuel n : Nat), n < fuel →
      (∀ c ∈ Nat.toDigitsCore 10 fuel n [], ∃ d, d < 10 ∧ c = Nat.digitChar d) ∧
      parseVal (Nat.toDigitsCore 10 fuel n []) = n := by
  intro fuel
  induction fuel with
  | zero => intro n h; exact absurd h (Nat.not_lt_zero n)
  | succ f ih =>
    intro n hn
    by_cases h : n / 10 = 0
    · have hlt : n < 10 := by
        have := (Nat.div_eq_zero_iff (by norm_num : 0 < 10)).mp h
        exact this
      constructor
      · intro c hc
        simp only [Nat.toDigitsCore, h, if_true] at hc
        simp at hc
        exact ⟨n % 10, Nat.mod_lt n (by norm_num), hc⟩
      · simp only [Nat.toDigitsCore, h, if_true]
        have hone : parseVal [Nat.digitChar (n % 10)]
            = digitVal (Nat.digitChar (n % 10)) := by
          simp [parseVal]
        rw [hone, digitVal_digitChar (n % 10) (Nat.mod_lt n (by norm_num))]
        exact Nat.mod_eq_of_lt hlt
    · have hnpos : 0 < n := by
        rcases Nat.eq_zero_or_pos n with h0 | h0
        · subst h0; simp at h
        · exact h0
      have hdiv_lt : n / 10 < n := Nat.div_lt_self hnpos (by norm_num)
      have hdf : n / 10 < f := by
        have hnf : n ≤ f := Nat.lt_succ_iff.mp hn
        exact Nat.lt_of_lt_of_le hdiv_lt hnf
      obtain ⟨ihmem, ihval⟩ := ih (n / 10) hdf
      have hexp : Nat.toDigitsCore 10 (f + 1) n []
          = Nat.toDigitsCore 10 f (n / 10) [] ++ [Nat.digitChar (n % 10)] := by
        simp only [Nat.toDigitsCore, h, if_false]
        exact toDigitsCore_acc 10 f (n / 10) [Nat.digitChar (n % 10)]
      constructor
      · intro c hc
        rw [hexp] at hc
        rcases List.mem_append.mp hc with hc | hc
        · exact ihmem c hc
        · simp at hc
          exact ⟨n % 10, Nat.mod_lt n (by norm_num), hc⟩
      · rw [hexp, parseVal_concat, ihval,
          digitVal_digitChar (n % 10) (Nat.mod_lt n (by norm_num))]
        exact Nat.div_add_mod n 10

theorem repr_data (n : Nat) :
    (Nat.repr n).data = Nat.toDigitsCore 10 (n + 1) n [] := rfl

theorem repr_no_dot (n : Nat) : ('.' : Char) ∉ (Nat.repr n).data := by
  intro hmem
  rw [repr_data] at hmem
  obtain ⟨d, hd, hcd⟩ := (toDigitsCore_spec (n + 1) n (Nat.lt_succ_self n)).1 _ hmem
  exact digitChar_ne_dot d hd hcd.symm

theorem repr_injective {m n : Nat} (h : Nat.repr m = Nat.repr n) : m = n := by
  have hdata : (Nat.repr m).data = (Nat.repr n).data := by rw [h]
  rw [repr_data, repr_data] at hdata
  have hm := (toDigitsCore_spec (m + 1) m (Nat.lt_succ_self m)).2
  have hn := (toDigitsCore_spec (n + 1) n (Nat.lt_succ_self n)).2
  rw [← hm, ← hn, hdata]

/-- Splitting a list at a marker element absent from both left parts. -/
theorem append_marker_inj {α : Type} [DecidableEq α] (a : α) :
    ∀ (l1 l2 r1 r2 : List α), a ∉ l1 → a ∉ l2 →
      l1 ++ a :: r1 = l2 ++ a :: r2 → l1 = l2 ∧ r1 = r2 := by
  intro l1
  induction l1 with
  | nil =>
    intro l2 r1 r2 _ h2 heq
    cases l2 with
    | nil => simpa using heq
    | cons b t =>
      simp only [List.nil_append, List.cons_append, List.cons.injEq] at heq
      exact absurd (heq.1 ▸ List.mem_cons_self b t) h2
  | cons b t ih =>
    intro l2 r1 r2 h1 h2 heq
    cases l2 with
    | nil =>
      simp only [List.cons_append, List.nil_append, List.cons.injEq] at heq
      exact absurd (heq.1 ▸ List.mem_cons_self b t) h1
    | cons b2 t2 =>
      simp only [List.cons_append, List.cons.injEq] at heq
      obtain ⟨hb, ht⟩ := heq
      have h1t : a ∉ t := fun hx => h1 (List.mem_cons_of_mem b hx)
      have h2t : a ∉ t2 := fun hx => h2 (List.mem_cons_of_mem b2 hx)
      obtain ⟨hteq, hreq⟩ := ih t2 r1 r2 h1t h2t ht
      exact ⟨by rw [hb, hteq], hreq⟩

theorem suffixed_data (c : String) (k : Nat) :
    (c ++ "." ++ Nat.repr k).data = c.data ++ '.' :: (Nat.repr k).data := by
  simp [String.data_append]

theorem suffixed_ne_plain {c c2 : String} (k : Nat) (h2 : DotFree c2) :
    c ++ "." ++ Nat.repr k ≠ c2 := by
  intro heq
  apply h2
  rw [← heq, suffixed_data]
  exact List.mem_append.mpr (Or.inr (List.mem_cons_self _ _))

theorem suffixed_inj {c c2 : String} {j k : Nat} (h1 : DotFree c) (h2 : DotFree c2)
    (heq : c ++ "." ++ Nat.repr j = c2 ++ "." ++ Nat.repr k) : c = c2 ∧ j = k := by
  have hdata : (c ++ "." ++ Nat.repr j).data = (c2 ++ "." ++ Nat.repr k).data := by
    rw [heq]
  rw [suffixed_data, suffixed_data] at hdata
  obtain ⟨hc, hr⟩ := append_marker_inj '.' c.data c2.data _ _ h1 h2 hdata
  exact ⟨String.ext hc, repr_injective (String.ext hr)⟩

/-! ### Distinctness of the de-duplicated names on dot-free inputs -/

theorem count_take_succ_self (columns : List String) (i : Nat)
    (hi : i < columns.length) :
    (columns.take (i + 1)).count (columns.getD i "")
      = (columns.take i).count (columns.getD i "") + 1 := by
  have hsome : columns[i]? = some (columns.getD i "") := by
    rw [List.getD_eq_getElem columns "" hi, List.getElem?_eq_getElem hi]
  rw [List.take_succ, hsome, List.count_append]
  simp

theorem count_take_mono (columns : List String) (c : String) {i j : Nat}
    (h : i ≤ j) : (columns.take i).count c ≤ (columns.take j).count c :=
  (List.take_prefix_take_left columns h).count_le c

theorem dedupName_ne (columns : List String) (hdf : ∀ c ∈ columns, DotFree c)
    {i j : Nat} (hij : i < j) (hj : j < columns.length) :
    dedupName columns i ≠ dedupName columns j := by
  have hi : i < columns.length := Nat.lt_trans hij hj
  intro heq
  have hdfi : DotFree (columns.getD i "") := by
    apply hdf
    rw [List.getD_eq_getElem columns "" hi]
    exact List.getElem_mem hi
  have hdfj : DotFree (columns.getD j "") := by
    apply hdf
    rw [List.getD_eq_getElem columns "" hj]
    exact List.getElem_mem hj
  simp only [dedupName] at heq
  by_cases hcc : columns.getD i "" = columns.getD j ""
  · have hlt : (columns.take i).count (columns.getD i "") <
        (columns.take j).count (columns.getD j "") := by
      rw [← hcc]
      have h1 := count_take_succ_self columns i hi
      have h2 := count_take_mono columns (columns.getD i "") (show i + 1 ≤ j from hij)
      omega
    by_cases hki : (columns.take i).count (columns.getD i "") = 0
    · rw [if_pos hki] at heq
      have hkj : ¬ (columns.take j).count (columns.getD j "") = 0 := by omega
      rw [if_neg hkj] at heq
      exact suffixed_ne_plain _ hdfi heq.symm
    · have hkj : ¬ (columns.take j).count (columns.getD j "") = 0 := by omega
      rw [if_neg hki, if_neg hkj] at heq
      obtain ⟨-, hk⟩ := suffixed_inj hdfi hdfj heq
      omega
  · by_cases hki : (columns.take i).count (columns.getD i "") = 0
      <;> by_cases hkj : (columns.take j).count (columns.getD j "") = 0
    · rw [if_pos hki, if_pos hkj] at heq
      exact hcc heq
    · rw [if_pos hki, if_neg hkj] at heq
      exact suffixed_ne_plain _ hdfi heq.symm
    · rw [if_neg hki, if_pos hkj] at heq
      exact suffixed_ne_plain _ hdfj heq
    · rw [if_neg hki, if_neg hkj] at heq
      exact hcc (suffixed_inj hdfi hdfj heq).1

theorem make_columns_unique_nodup (columns : List String)
    (hdf : ∀ c ∈ columns, DotFree c) : (_make_columns_unique columns).Nodup := by
  rw [List.nodup_iff_injective_get]
  rintro ⟨i, hi⟩ ⟨j, hj⟩ heq
  have hlen := make_columns_unique_length columns
  have hi2 : i < columns.length := hlen ▸ hi
  have hj2 : j < columns.length := hlen ▸ hj
  have hgi := make_columns_unique_get? columns i hi2
  have hgj := make_columns_unique_get? columns j hj2
  rw [List.get?_eq_get hi] at hgi
  rw [List.get?_eq_get hj] at hgj
  have hval : dedupName columns i = dedupName columns j := by
    rw [← Option.some.injEq, ← hgi, ← hgj, heq]
  rcases Nat.lt_trichotomy i j with h | h | h
  · exact absurd hval (dedupName_ne columns hdf h hj2)
  · exact Fin.ext h
  · exact absurd hval.symm (dedupName_ne columns hdf h hi2)

/-- Uniqueness boundary of the de-duplication scheme: on headers whose
names contain no dot, the Normalizer output column names are pairwise
distinct (the collision exhibited in `make_columns_unique_collision`
needs a name that already carries a dot-suffix). -/
theorem normalize_nodup_of_dotfree (grid : List (List Cell))
    (headerRow dataStartRow : Nat) (t : Table) (hdr : List Cell)
    (hhdr : grid.get? (headerRow - 1) = some hdr)
    (hdf : ∀ c ∈ hdr, DotFree (cellToStr c))
    (hnorm : normalize grid headerRow dataStartRow = some t) :
    t.cols.Nodup := by
  by_cases hg : grid.length < dataStartRow - 1
  · simp [normalize, hg] at hnorm
  · simp only [normalize, if_neg hg, hhdr] at hnorm
    obtain rfl := (Option.some.inj hnorm).symm
    apply make_columns_unique_nodup
    intro c hc
    obtain ⟨x, hx, rfl⟩ := List.mem_map.mp hc
    exact hdf x hx

/-- C1. Header de-duplication: scanning left to right, the first
occurrence of each name is kept unchanged, and an occurrence with k
earlier occurrences of the same name (k ≥ 1, i.e. the k-th duplicate) is
renamed to the name followed by the suffix `.k`; in particular the header
["SKU", "Price", "SKU", "SKU"] yields ["SKU", "Price", "SKU.1", "SKU.2"]. -/
theorem header_dedup_rule (columns : List String) :
    (_make_columns_unique columns).length = columns.length ∧
    (∀ i, i < columns.length →
      (_make_columns_unique columns).get? i =
        some (if (columns.take i).count (columns.getD i "") = 0
              then columns.getD i ""
              else columns.getD i "" ++ "." ++
                Nat.repr ((columns.take i).count (columns.getD i "")))) ∧
    _make_columns_unique ["SKU", "Price", "SKU", "SKU"]
      = ["SKU", "Price", "SKU.1", "SKU.2"] := by
  refine ⟨make_columns_unique_length columns, ?_, by decide⟩
  intro i h
  have := make_columns_unique_get? columns i h
  simpa [dedupName] using this

/-- Witness for C1: the rule applied to the fourth entry of the example
header gives the second duplicate suffix. -/
theorem header_dedup_rule_witness :
    (_make_columns_unique ["SKU", "Price", "SKU", "SKU"]).get? 3 = some "SKU.2" := by
  have h := (header_dedup_rule ["SKU", "Price", "SKU", "SKU"]).2.1 3 (by norm_num)
  rw [h]
  decide

/-- C5 (failing evaluation). A header name that already carries a
dot-suffix collides with the renaming of a later duplicate: on the header
["A", "A.1", "A"] the scan outputs the name "A.1" twice, so the Table the
Normalizer produces does not have pairwise-distinct column names, contrary
to the documented uniqueness guarantee. -/
theorem make_columns_unique_collision :
    _make_columns_unique ["A", "A.1", "A"] = ["A", "A.1", "A.1"] ∧
    ¬ (_make_columns_unique ["A", "A.1", "A"]).Nodup ∧
    normalize [[some "A", some "A.1", some "A"]] 1 1
      = some ⟨["A", "A.1", "A.1"], [[some "A", some "A.1", some "A"]]⟩ :=
  ⟨by decide, by decide, by decide⟩

/-! ### Selector, per-file pipeline and accumulator helpers -/

theorem selectColumns_none_of_absent (t : Table) (req : List String)
    (hne : req ≠ []) (habs : ∀ c ∈ req, c ∉ t.cols) : selectColumns t req = none := by
  simp only [selectColumns, if_neg hne]
  have hex : req.filter (fun c => decide (c ∈ t.cols)) = [] := by
    rw [List.filter_eq_nil_iff]
    intro c hc
    simp [habs c hc]
  simp [hex]

theorem selectColumns_some_of_present (t : Table) (req : List String)
    (hpres : ∃ c ∈ req, c ∈ t.cols) :
    selectColumns t req
      = some (projectCols t (req.filter (fun c => decide (c ∈ t.cols))),
              req.filter (fun c => decide (c ∉ t.cols))) := by
  obtain ⟨c0, hc0r, hc0t⟩ := hpres
  have hne : req ≠ [] := by
    rintro rfl
    exact absurd hc0r (List.not_mem_nil c0)
  have hex : req.filter (fun c => decide (c ∈ t.cols)) ≠ [] := by
    intro h
    have := (List.filter_eq_nil_iff.mp h) c0 hc0r
    simp [hc0t] at this
  simp only [selectColumns, if_neg hne]
  simp [hex]

theorem accumTables_append (s : RunSettings)
    (pre post : List (String × List (List Cell))) :
    accumTables s (pre ++ post) = accumTables s pre ++ accumTables s post := by
  simp [accumTables]

theorem accumTables_cons_none (s : RunSettings) (f : String × List (List Cell))
    (files : List (String × List (List Cell)))
    (h : processOneFile s f.1 f.2 = none) :
    accumTables s (f :: files) = accumTables s files := by
  simp [accumTables, List.filterMap_cons, h]

theorem accumTables_cons_some (s : RunSettings) (f : String × List (List Cell))
    (files : List (String × List (List Cell))) (t : Table)
    (h : processOneFile s f.1 f.2 = some t) :
    accumTables s (f :: files) = t :: accumTables s files := by
  simp [accumTables, List.filterMap_cons, h]

theorem addSourceFile_rows_length (t : Table) (name : String) :
    (addSourceFile t name).rows.length = t.rows.length := by
  by_cases h : "source_file" ∈ t.cols <;> simp [addSourceFile, h]

theorem addSourceFile_mem (t : Table) (name : String) :
    "source_file" ∈ (addSourceFile t name).cols := by
  by_cases h : "source_file" ∈ t.cols
  · simp [addSourceFile, h]
  · simp [addSourceFile, h]

theorem normalize_eq_some (grid : List (List Cell)) (headerRow dataStartRow : Nat)
    (hg : ¬ grid.length < dataStartRow - 1) (hhr : headerRow - 1 < grid.length) :
    normalize grid headerRow dataStartRow
      = some ⟨_make_columns_unique ((grid.get ⟨headerRow - 1, hhr⟩).map cellToStr),
              grid.drop (dataStartRow - 1)⟩ := by
  simp only [normalize, if_neg hg, List.get?_eq_get hhr]

theorem processOneFile_some (s : RunSettings) (name : String)
    (grid : List (List Cell)) (t : Table)
    (hnorm : normalize grid s.headerRow s.dataStartRow = some t)
    (hsel : s.columnsToExtract = [] ∨ ∃ c ∈ s.columnsToExtract, c ∈ t.cols) :
    ∃ t2, processOneFile s name grid = some t2 ∧
      t2.rows.length = t.rows.length ∧ "source_file" ∈ t2.cols := by
  rcases hsel with hempty | hpres
  · refine ⟨addSourceFile t name, ?_, addSourceFile_rows_length t name,
      addSourceFile_mem t name⟩
    simp [processOneFile, hnorm, hempty, selectColumns]
  · have hsel2 := selectColumns_some_of_present t s.columnsToExtract hpres
    refine ⟨addSourceFile
        (projectCols t (s.columnsToExtract.filter (fun c => decide (c ∈ t.cols)))) name,
      ?_, ?_, addSourceFile_mem _ name⟩
    · simp [processOneFile, hnorm, hsel2]
    · rw [addSourceFile_rows_length]
      simp [projectCols]

/-! ### Claim theorems: Normalizer row count, Column Selector, boundary -/

/-- C6. Normalizer row count: for 1-based row numbers with
`data_start_row ≥ header_row` and a grid of at least `data_start_row`
rows, the Normalizer accepts the file and its output table has exactly
`gridRowCount - (data_start_row - 1)` rows. -/
theorem normalize_row_count (grid : List (List Cell))
    (headerRow dataStartRow : Nat) (h1 : 1 ≤ headerRow)
    (hhd : headerRow ≤ dataStartRow) (hlen : dataStartRow ≤ grid.length) :
    ∃ t, normalize grid headerRow dataStartRow = some t ∧
      t.rows.length = grid.length - (dataStartRow - 1) := by
  have hg : ¬ grid.length < dataStartRow - 1 := by omega
  have hhr : headerRow - 1 < grid.length := by omega
  exact ⟨_, normalize_eq_some grid headerRow dataStartRow hg hhr, by simp⟩

/-- Witness for C6: a three-row grid with header row 1 and data start row
2 yields a two-row table. -/
theorem normalize_row_count_witness :
    ∃ t, normalize [[some "H"], [some "1"], [some "2"]] 1 2 = some t ∧
      t.rows.length = [[some "H"], [some "1"], [some "2"]].length - (2 - 1) :=
  normalize_row_count [[some "H"], [some "1"], [some "2"]] 1 2
    (by norm_num) (by norm_num) (by norm_num)

/-- C7. Column Selector rejection: a non-empty request none of whose
names occurs in the table rejects the file (no table is produced), and
the accumulator over any surrounding file list is unaffected — the run
continues with the other files. -/
theorem selector_reject (t : Table) (req : List String)
    (hne : req ≠ []) (habs : ∀ c ∈ req, c ∉ t.cols) :
    selectColumns t req = none ∧
    ∀ (s : RunSettings) (name : String) (grid : List (List Cell))
      (pre post : List (String × List (List Cell))),
      normalize grid s.headerRow s.dataStartRow = some t →
      s.columnsToExtract = req →
      accumTables s (pre ++ (name, grid) :: post)
        = accumTables s pre ++ accumTables s post := by
  have hsel := selectColumns_none_of_absent t req hne habs
  refine ⟨hsel, ?_⟩
  intro s name grid pre post hnorm hreq
  have hone : processOneFile s name grid = none := by
    simp [processOneFile, hnorm, hreq, hsel]
  rw [accumTables_append, accumTables_cons_none s (name, grid) post hone]

/-- Witness for C7: requesting Z against a table with the single column A
rejects the file. -/
theorem selector_reject_witness :
    selectColumns ⟨["A"], [[some "1"]]⟩ ["Z"] = none :=
  (selector_reject ⟨["A"], [[some "1"]]⟩ ["Z"] (by decide) (by decide)).1

/-- C8. Column Selector narrowing: when at least one requested name is
present, the file is kept, the result table's columns are exactly the
present requested names in requested order, and the warning lists exactly
the absent requested names. -/
theorem selector_narrow (t : Table) (req : List String)
    (hpres : ∃ c ∈ req, c ∈ t.cols) :
    selectColumns t req
      = some (projectCols t (req.filter (fun c => decide (c ∈ t.cols))),
              req.filter (fun c => decide (c ∉ t.cols))) ∧
    (projectCols t (req.filter (fun c => decide (c ∈ t.cols)))).cols
      = req.filter (fun c => decide (c ∈ t.cols)) ∧
    (∀ c, c ∈ (projectCols t (req.filter (fun c => decide (c ∈ t.cols)))).cols
      ↔ (c ∈ req ∧ c ∈ t.cols)) ∧
    (∀ c, c ∈ req.filter (fun c => decide (c ∉ t.cols)) ↔ (c ∈ req ∧ c ∉ t.cols)) := by
  refine ⟨selectColumns_some_of_present t req hpres, rfl, ?_, ?_⟩
  · intro c
    simp [projectCols, List.mem_filter]
  · intro c
    simp [List.mem_filter]

/-- Witness for C8: requesting A and Z against a table with the single
column A keeps A and reports Z missing. -/
theorem selector_narrow_witness :
    selectColumns ⟨["A"], [[some "1"]]⟩ ["A", "Z"]
      = some (projectCols ⟨["A"], [[some "1"]]⟩ ["A"], ["Z"]) := by
  rw [(selector_narrow ⟨["A"], [[some "1"]]⟩ ["A", "Z"] ⟨"A", by decide, by decide⟩).1]
  decide

/-- C10 counterexample: a one-row grid with data start row 2 passes the
row-count check and normalizes to a zero-row table, but with only the
absent column Z requested the selector still rejects the file, so no
table is contributed. -/
theorem boundary_not_always_accepted :
    [[(some "A" : Cell)]].length = rejectSettings.dataStartRow - 1 ∧
    normalize [[some "A"]] rejectSettings.headerRow rejectSettings.dataStartRow
      = some ⟨["A"], []⟩ ∧
    processOneFile rejectSettings "f.csv" [[some "A"]] = none :=
  ⟨by decide, by decide, by decide⟩

/-- C10 (amended). Boundary of the not-enough-rows check: a grid with
exactly `data_start_row - 1` rows is not rejected by the row-count check;
provided the column selector also accepts it (empty request, or some
requested name present), the file contributes a zero-row table carrying
the source_file column to the accumulation. -/
theorem boundary_zero_rows (s : RunSettings) (name : String)
    (grid : List (List Cell)) (hlen : grid.length = s.dataStartRow - 1)
    (h1 : 1 ≤ s.headerRow) (hlt : s.headerRow < s.dataStartRow) :
    ∃ t, normalize grid s.headerRow s.dataStartRow = some t ∧ t.rows.length = 0 ∧
      ((s.columnsToExtract = [] ∨ ∃ c ∈ s.columnsToExtract, c ∈ t.cols) →
        ∃ t2, processOneFile s name grid = some t2 ∧ t2.rows.length = 0 ∧
          "source_file" ∈ t2.cols ∧
          ∀ pre post, accumTables s (pre ++ (name, grid) :: post)
            = accumTables s pre ++ t2 :: accumTables s post) := by
  have hg : ¬ grid.length < s.dataStartRow - 1 := by omega
  have hhr : s.headerRow - 1 < grid.length := by omega
  have hnorm := normalize_eq_some grid s.headerRow s.dataStartRow hg hhr
  refine ⟨_, hnorm, ?_, ?_⟩
  · simp [hlen]
  · intro hsel
    obtain ⟨t2, hp, hl, hm⟩ := processOneFile_some s name grid _ hnorm hsel
    refine ⟨t2, hp, ?_, hm, ?_⟩
    · rw [hl]
      simp [hlen]
    · intro pre post
      rw [accumTables_append, accumTables_cons_some s (name, grid) post t2 hp]

/-- Witness for the amended C10 boundary property: a one-row grid with an
empty request contributes a zero-row tagged table. -/
theorem boundary_zero_rows_witness :
    ∃ t2, processOneFile acceptSettings "f.csv" [[some "A"]] = some t2 ∧
      t2.rows.length = 0 ∧ "source_file" ∈ t2.cols := by
  obtain ⟨t, -, -, h⟩ := boundary_zero_rows acceptSettings "f.csv" [[some "A"]]
    (by decide) (by decide) (by decide)
  obtain ⟨t2, hp, hl, hm, -⟩ := h (Or.inl rfl)
  exact ⟨t2, hp, hl, hm⟩

/-! ### Column lookup and union-concatenation -/

theorem colIndex?_eq_none (cols : List String) (c : String) (hc : c ∉ cols) :
    colIndex? cols c = none := by
  induction cols with
  | nil => rfl
  | cons d tl ih =>
    have hdc : ¬ d = c := fun h => hc (h ▸ List.mem_cons_self d tl)
    have hct : c ∉ tl := fun h => hc (List.mem_cons_of_mem d h)
    simp [colIndex?, hdc, ih hct]

theorem getCell_not_mem (cols : List String) (row : List Cell) (c : String)
    (hc : c ∉ cols) : getCell cols row c = none := by
  simp [getCell, colIndex?_eq_none cols c hc]

/-- Reading column `c` out of a row whose entries were generated from the
column list itself recovers the generator at `c` (the first occurrence of
`c` carries `f c`). -/
theorem getCell_map (cols : List String) (f : String → Cell) (c : String)
    (hc : c ∈ cols) : getCell cols (cols.map f) c = f c := by
  induction cols with
  | nil => cases hc
  | cons d tl ih =>
    by_cases hdc : d = c
    · subst hdc
      simp [getCell, colIndex?]
    · have hct : c ∈ tl := by
        rcases List.mem_cons.mp hc with h | h
        · exact absurd h.symm hdc
        · exact h
      have hih := ih hct
      simp only [getCell, colIndex?, if_neg hdc] at hih ⊢
      cases hidx : colIndex? tl c <;> rw [hidx] at hih <;> simpa using hih

theorem mem_unionCols (cs : List String) :
    ∀ (acc : List String) (c : String), c ∈ unionCols acc cs ↔ c ∈ acc ∨ c ∈ cs := by
  induction cs with
  | nil => intro acc c; simp [unionCols]
  | cons d tl ih =>
    intro acc c
    have hstep : unionCols acc (d :: tl)
        = unionCols (if d ∈ acc then acc else acc ++ [d]) tl := rfl
    rw [hstep, ih]
    by_cases hd : d ∈ acc
    · rw [if_pos hd]
      simp only [List.mem_cons]
      constructor
      · rintro (h | h)
        · exact Or.inl h
        · exact Or.inr (Or.inr h)
      · rintro (h | rfl | h)
        · exact Or.inl h
        · exact Or.inl hd
        · exact Or.inr h
    · rw [if_neg hd]
      simp only [List.mem_append, List.mem_cons, List.not_mem_nil, or_false]
      tauto

theorem nodup_unionCols (cs : List String) :
    ∀ acc, acc.Nodup → (unionCols acc cs).Nodup := by
  induction cs with
  | nil => intro acc h; simpa [unionCols] using h
  | cons d tl ih =>
    intro acc h
    have hstep : unionCols acc (d :: tl)
        = unionCols (if d ∈ acc then acc else acc ++ [d]) tl := rfl
    rw [hstep]
    apply ih
    by_cases hd : d ∈ acc
    · rwa [if_pos hd]
    · rw [if_neg hd]
      refine List.Nodup.append h (List.nodup_singleton d) ?_
      intro x hx hxd
      rw [List.mem_singleton] at hxd
      exact hd (hxd ▸ hx)

theorem mem_concatCols (ts : List Table) (c : String) :
    c ∈ concatCols ts ↔ ∃ t ∈ ts, c ∈ t.cols := by
  suffices h : ∀ acc, c ∈ ts.foldl (fun a t => unionCols a t.cols) acc
      ↔ c ∈ acc ∨ ∃ t ∈ ts, c ∈ t.cols by
    simpa [concatCols] using h []
  induction ts with
  | nil => intro acc; simp
  | cons t0 tl ih =>
    intro acc
    simp only [List.foldl_cons]
    rw [ih (unionCols acc t0.cols), mem_unionCols]
    constructor
    · rintro ((h | h) | ⟨t, ht, hc⟩)
      · exact Or.inl h
      · exact Or.inr ⟨t0, List.mem_cons_self t0 tl, h⟩
      · exact Or.inr ⟨t, List.mem_cons_of_mem t0 ht, hc⟩
    · rintro (h | ⟨t, ht, hc⟩)
      · exact Or.inl (Or.inl h)
      · rcases List.mem_cons.mp ht with rfl | ht2
        · exact Or.inl (Or.inr hc)
        · exact Or.inr ⟨t, ht2, hc⟩

theorem nodup_concatCols (ts : List Table) : (concatCols ts).Nodup := by
  suffices h : ∀ acc, acc.Nodup → (ts.foldl (fun a t => unionCols a t.cols) acc).Nodup by
    exact h [] List.nodup_nil
  induction ts with
  | nil => intro acc h; simpa using h
  | cons t0 tl ih =>
    intro acc h
    simp only [List.foldl_cons]
    exact ih (unionCols acc t0.cols) (nodup_unionCols t0.cols acc h)

theorem concatTables_rows_length (ts : List Table) :
    (concatTables ts).rows.length = (ts.map (fun t => t.rows.length)).sum := by
  simp [concatTables, List.map_map, Function.comp_def]

/-! ### Claim theorem: Combiner concatenation -/

/-- C2. Combiner concatenation: for a non-empty list of accumulated
per-file tables (each carrying its source_file column), the combined
table's columns are exactly the union of the input columns — hence
include source_file —, its row count is the sum of the input row counts,
its rows are the input tables' rows re-laid along the combined columns in
accumulation order, and a column absent from some input table reads as
null on that table's rows. -/
theorem combiner_concat_spec (ts : List Table) (hne : ts ≠ [])
    (hsf : ∀ t ∈ ts, "source_file" ∈ t.cols) :
    (∀ c, c ∈ (concatTables ts).cols ↔ ∃ t ∈ ts, c ∈ t.cols) ∧
    "source_file" ∈ (concatTables ts).cols ∧
    (concatTables ts).rows.length = (ts.map (fun t => t.rows.length)).sum ∧
    (concatTables ts).rows
      = (ts.map (fun t =>
          t.rows.map (fun r => reindexRow t.cols (concatTables ts).cols r))).flatten ∧
    (∀ t ∈ ts, ∀ r ∈ t.rows, ∀ c, c ∉ t.cols →
      getCell (concatTables ts).cols (reindexRow t.cols (concatTables ts).cols r) c
        = none) := by
  refine ⟨fun c => mem_concatCols ts c, ?_, concatTables_rows_length ts, rfl, ?_⟩
  · obtain ⟨t0, ht0⟩ := List.exists_mem_of_ne_nil ts hne
    exact (mem_concatCols ts "source_file").mpr ⟨t0, ht0, hsf t0 ht0⟩
  · intro t ht r hr c hct
    by_cases hco : c ∈ concatCols ts
    · have := getCell_map (concatCols ts) (fun c2 => getCell t.cols r c2) c hco
      calc getCell (concatTables ts).cols (reindexRow t.cols (concatTables ts).cols r) c
          = getCell t.cols r c := this
        _ = none := getCell_not_mem t.cols r c hct
    · exact getCell_not_mem _ _ _ hco

/-- Witness for C2 at the specified example: tables over {A,B} and {A,C},
two rows each — four combined rows, column C present, and B null on the
second file's rows. -/
theorem combiner_concat_spec_witness :
    (concatTables [exT1, exT2]).rows.length
      = ([exT1, exT2].map (fun t => t.rows.length)).sum ∧
    "C" ∈ (concatTables [exT1, exT2]).cols ∧
    getCell (concatTables [exT1, exT2]).cols
      (reindexRow exT2.cols (concatTables [exT1, exT2]).cols
        [some "a3", some "c3", some "f2"]) "B" = none := by
  have h := combiner_concat_spec [exT1, exT2] (by decide) (by decide)
  refine ⟨h.2.2.1, ?_, ?_⟩
  · exact (h.1 "C").mpr ⟨exT2, by decide, by decide⟩
  · exact h.2.2.2.2 exT2 (by decide) [some "a3", some "c3", some "f2"]
      (by decide) "B" (by decide)

/-! ### Claim theorem: Lookup Enricher post-join cleanup -/

/-- C3. Lookup Enricher post-join cleanup: given that the source key is a
column of the combined table, the lookup-key column is absent from the
enriched result exactly when the key names differ and the lookup key was
not itself requested; and when the key names coincide (and a unique key
column entered the join), the key column appears exactly once in the
result. -/
theorem enrich_key_cleanup (finalT lookupT : Table) (sk lk : String)
    (colsToAdd : List String) (hsk : sk ∈ finalT.cols) :
    (lk ∉ (enrich finalT lookupT sk lk colsToAdd).cols
      ↔ (sk ≠ lk ∧ lk ∉ colsToAdd)) ∧
    (sk = lk → lk ∉ colsToAdd → finalT.cols.count lk = 1 →
      (enrich finalT lookupT sk lk colsToAdd).cols.count lk = 1) := by
  by_cases hcond : sk ≠ lk ∧ lk ∉ colsToAdd
  · have hcols : (enrich finalT lookupT sk lk colsToAdd).cols
        = ((finalT.cols ++ (lk :: colsToAdd.filter (fun c => decide (c ≠ lk)))).filter
            (fun d => decide (d ≠ lk))) := by
      simp only [enrich, if_pos hcond, dropCol, mergeLeft, projectCols, if_neg hcond.1]
    have habs : lk ∉ (enrich finalT lookupT sk lk colsToAdd).cols := by
      rw [hcols]
      intro hmem
      have := (List.mem_filter.mp hmem).2
      simp at this
    refine ⟨⟨fun _ => hcond, fun _ => habs⟩, ?_⟩
    intro h1 _ _
    exact absurd h1 hcond.1
  · have hcols : (enrich finalT lookupT sk lk colsToAdd).cols
        = finalT.cols ++
          (if sk = lk
           then (lk :: colsToAdd.filter (fun c => decide (c ≠ lk))).filter
                  (fun c => decide (c ≠ lk))
           else (lk :: colsToAdd.filter (fun c => decide (c ≠ lk)))) := by
      simp only [enrich, if_neg hcond, mergeLeft, projectCols]
    have hlkmem : lk ∈ (enrich finalT lookupT sk lk colsToAdd).cols := by
      rw [hcols]
      by_cases hsklk : sk = lk
      · exact List.mem_append.mpr (Or.inl (hsklk ▸ hsk))
      · rw [if_neg hsklk]
        exact List.mem_append.mpr (Or.inr (List.mem_cons_self _ _))
    refine ⟨⟨fun h => absurd hlkmem h, fun h => absurd h hcond⟩, ?_⟩
    intro hskeq hnreq hcount
    rw [hcols, if_pos hskeq, List.count_append, hcount]
    have h0 : (((lk :: colsToAdd.filter (fun c => decide (c ≠ lk))).filter
        (fun c => decide (c ≠ lk))).count lk) = 0 := by
      rw [List.count_eq_zero]
      intro hmem
      have := (List.mem_filter.mp hmem).2
      simp at this
    rw [h0]

/-- Witness for C3: with source key SKU, lookup key ASIN_KEY not
requested, the ASIN_KEY column is absent from the enriched result. -/
theorem enrich_key_cleanup_witness :
    "ASIN_KEY" ∉ (enrich ⟨["SKU", "source_file"], [[some "X1", some "f"]]⟩
        ⟨["ASIN_KEY", "ASIN"], [[some "X1", some "B01"]]⟩
        "SKU" "ASIN_KEY" ["ASIN"]).cols :=
  ((enrich_key_cleanup ⟨["SKU", "source_file"], [[some "X1", some "f"]]⟩
      ⟨["ASIN_KEY", "ASIN"], [[some "X1", some "B01"]]⟩
      "SKU" "ASIN_KEY" ["ASIN"] (by decide)).1).mpr ⟨by decide, by decide⟩

/-! ### Claim theorems: lookup-stage failure handling -/

/-- C4 counterexample: with merge enabled and the lookup file unreadable,
the merge stage reports an error and the run nevertheless hands the
un-enriched combined table to the output writer — the save logic is not
skipped. -/
theorem lookup_failure_still_writes :
    (runCombine runMergeSettings runFiles none).mergeError.isSome = true ∧
    (runCombine runMergeSettings runFiles none).written.isSome = true :=
  ⟨rfl, rfl⟩

/-- C4 (amended). Whenever the lookup stage of a merge-enabled run with a
non-empty accumulation fails, the error is reported and the run proceeds
to write the combined-but-unenriched table. -/
theorem lookup_failure_reports_and_writes (s : RunSettings)
    (files : List (String × List (List Cell)))
    (lookupGrid : Option (List (List Cell))) (e : String)
    (hm : s.enableMerge = true) (hne : accumTables s files ≠ [])
    (herr : lookupStage s lookupGrid (concatTables (accumTables s files))
      = Except.error e) :
    runCombine s files lookupGrid
      = ⟨some (concatTables (accumTables s files)), some e⟩ := by
  simp [runCombine, hne, hm, herr]

/-- Witness for the amended C4: the concrete failing merge run writes the
unmerged table and reports the lookup-read error. -/
theorem lookup_failure_reports_and_writes_witness :
    runCombine runMergeSettings runFiles none
      = ⟨some (concatTables (accumTables runMergeSettings runFiles)),
         some "cannot read lookup file"⟩ :=
  lookup_failure_reports_and_writes runMergeSettings runFiles none
    "cannot read lookup file" rfl (by decide) rfl

/-! ### Claim theorems: run preconditions -/

/-- C9 counterexample: with merge disabled, the lookup-txt flag enabled
and its delimiter empty, the claim's required set flags a missing field,
but the code's gate lets the run proceed — the lookup delimiter is only
required when merge is enabled as well. -/
theorem preconditions_lookup_delim_counterexample :
    claimMissingFields lookupTxtOnlySettings = ["lookup_txt_delimiter"] ∧
    run_processing lookupTxtOnlySettings = RunOutcome.proceeded :=
  ⟨by decide, by decide⟩

/-- C9 (amended). Precondition gate: whenever any code-required field
(base fields; plus the input-txt delimiter when txt processing is on;
plus the merge fields, and the lookup delimiter when the lookup-txt flag
is also on, when merge is on) strips to empty, the run aborts before the
pipeline and the error lists exactly the missing fields; otherwise it
proceeds. -/
theorem run_preconditions (s : AppSettings) :
    (missingFields s ≠ [] →
      run_processing s = RunOutcome.aborted (missingFields s)) ∧
    (missingFields s = [] → run_processing s = RunOutcome.proceeded) := by
  constructor <;> intro h <;> simp [run_processing, h]

/-- Witness for the amended C9: a blank input folder aborts the run,
reporting exactly that field. -/
theorem run_preconditions_witness :
    run_processing missingFolderSettings = RunOutcome.aborted ["input_folder"] := by
  have h := (run_preconditions missingFolderSettings).1 (by decide)
  rw [h]
  decide

end Combiner
